import Mathlib

/-!
Shallow embedding of the RSVP reader core: the punctuation pause stub
(`src/lib/util/pause.ts`), the tokenizer and chapter segmenter
(`tokenizeText`), the progress computation (`getProgressPercentage`),
the player control handlers (`RSVPPlayer.tsx`), and the EPUB container
resolution pipeline (`src/lib/epub/parseEpub.ts`).

JavaScript strings are modelled as `String`/`List Char`, JS numbers
arising here as `Nat`/`Int`/`Rat`, and the external DOM parser as an
uninterpreted function `String → XmlNode`.
-/

namespace RSVP

/-- The set of characters matched by JavaScript's regex `\s` (also the set
removed by `String.prototype.trim`). -/
def jsWhitespace (c : Char) : Bool :=
  c = ' ' || c = '\t' || c = '\n' || c = '\r' ||
  c.val = 11 || c.val = 12 || c.val = 0xa0 || c.val = 0x1680 ||
  (0x2000 ≤ c.val && c.val ≤ 0x200a) ||
  c.val = 0x2028 || c.val = 0x2029 || c.val = 0x202f ||
  c.val = 0x205f || c.val = 0x3000 || c.val = 0xfeff

/-- JavaScript `String.prototype.trim`. -/
def jsTrim (cs : List Char) : List Char :=
  ((cs.dropWhile jsWhitespace).reverse.dropWhile jsWhitespace).reverse

/-- JavaScript `str.split('\n')` (keeps empty segments). -/
def splitNl : List Char → List (List Char)
  | [] => [[]]
  | c :: rest =>
    if c = '\n' then [] :: splitNl rest
    else
      match splitNl rest with
      | l :: ls => (c :: l) :: ls
      | [] => [[c]]

/-- Accumulator pass behind `splitWords`. -/
def splitWsAux : List Char → List Char → List (List Char)
  | [], acc => if acc = [] then [] else [acc.reverse]
  | c :: rest, acc =>
    if jsWhitespace c then
      if acc = [] then splitWsAux rest []
      else acc.reverse :: splitWsAux rest []
    else splitWsAux rest (c :: acc)

/-- JavaScript `str.split(/\s+/).filter(word => word.length > 0)`: the
maximal whitespace-free runs of the string. -/
def splitWords (cs : List Char) : List (List Char) :=
  splitWsAux cs []

/-- The keyword alternatives of the heading regex
`/^(Chapter|Part|Section|Prologue|Epilogue|Introduction|Conclusion)\s+/i`. -/
def headingKeywords : List String :=
  ["Chapter", "Part", "Section", "Prologue", "Epilogue", "Introduction", "Conclusion"]

def lowerList (cs : List Char) : List Char :=
  cs.map Char.toLower

/-- Does the line start (case-insensitively) with `kw` followed by a
`\s` character? -/
def keywordAt (cs : List Char) (kw : String) : Bool :=
  let k := kw.toList
  (lowerList (cs.take k.length) == lowerList k) &&
    (match cs.drop k.length with
     | c :: _ => jsWhitespace c
     | [] => false)

def keywordHeading (cs : List Char) : Bool :=
  headingKeywords.any (keywordAt cs)

def isRomanChar (c : Char) : Bool :=
  let l := c.toLower
  l = 'i' || l = 'v' || l = 'x' || l = 'l' || l = 'c' || l = 'd' || l = 'm'

/-- The separator class `[\s.:]` of the numeric/roman heading regexes. -/
def sepChar (c : Char) : Bool :=
  jsWhitespace c || c = '.' || c = ':'

/-- JavaScript `/^[IVXLCDM]+[\s.:]/i.test(line)`. -/
def romanHeading (cs : List Char) : Bool :=
  let r := cs.takeWhile isRomanChar
  (!r.isEmpty) &&
    (match cs.drop r.length with
     | c :: _ => sepChar c
     | [] => false)

/-- JavaScript `/^\d+[\s.:]/i.test(line)`. -/
def digitHeading (cs : List Char) : Bool :=
  let r := cs.takeWhile Char.isDigit
  (!r.isEmpty) &&
    (match cs.drop r.length with
     | c :: _ => sepChar c
     | [] => false)

/-- Chapter-heading classification of a trimmed line (`tokenizeText`,
first pass). -/
def isChapterTitleLine (cs : List Char) : Bool :=
  keywordHeading cs ||
  (romanHeading cs && decide (cs.length < 30)) ||
  (digitHeading cs && decide (cs.length < 30))

/-- The `Token` interface of the chapter-aware tokenizer. -/
structure Token where
  text : String
  isSentenceEnd : Bool
  index : Nat
  chapterIndex : Nat
  chapterTitle : String
  paragraphIndex : Nat
deriving Repr, DecidableEq

/-- The `Chapter` interface.  `endIndex` is `tokens.length - 1` at the
final push and so can be `-1`; it is modelled as `Int`. -/
structure Chapter where
  title : String
  startIndex : Nat
  endIndex : Int
  progress : Rat
deriving Repr, DecidableEq

/-- JavaScript `/[.!?]$/.test(word)`. -/
def endsSentence (w : List Char) : Bool :=
  match w.getLast? with
  | some c => c = '.' || c = '!' || c = '?'
  | none => false

/-- First pass of `tokenizeText`: split on newlines, trim, drop empty
lines, classify each surviving line as heading or body. -/
def structuredText (text : String) : List (List Char × Bool) :=
  (splitNl text.toList).filterMap fun line =>
    let t := jsTrim line
    if t = [] then none else some (t, isChapterTitleLine t)

/-- The mutable locals of `tokenizeText`'s second pass. -/
structure SegState where
  tokens : List Token
  chapters : List Chapter
  paragraphIndex : Nat
  tokenIndex : Nat
  activeChapterStart : Nat
  activeChapterTitle : String
  currentChapterIndex : Nat

/-- `(activeChapterStart / Math.max(1, total)) * 100`. -/
def chapterProgress (start total : Nat) : Rat :=
  ((start : Rat) / ((max 1 total : Nat) : Rat)) * 100

/-- The inner `for (const word of words)` loop of the second pass. -/
def pushTokens (s : SegState) : List (List Char) → SegState
  | [] => s
  | w :: ws =>
    pushTokens
      { s with
        tokens := s.tokens ++
          [{ text := String.mk w
             isSentenceEnd := endsSentence w
             index := s.tokenIndex
             chapterIndex := s.currentChapterIndex
             chapterTitle := s.activeChapterTitle
             paragraphIndex := s.paragraphIndex }]
        tokenIndex := s.tokenIndex + 1 } ws

/-- The "save previous chapter" guard at a heading line (records the
active chapter unless it is empty). -/
def closeChapter (s : SegState) : SegState :=
  if s.activeChapterStart < s.tokenIndex then
    { s with
      chapters := s.chapters ++
        [{ title := s.activeChapterTitle
           startIndex := s.activeChapterStart
           endIndex := (s.tokenIndex : Int) - 1
           progress := chapterProgress s.activeChapterStart s.tokenIndex }] }
  else s

/-- Opening a new active chapter at a heading line. -/
def openChapter (title : List Char) (s : SegState) : SegState :=
  { s with
    activeChapterTitle := String.mk title
    activeChapterStart := s.tokenIndex
    currentChapterIndex := s.currentChapterIndex + 1 }

/-- One iteration of `for (const { text, isChapterTitle } of structuredText)`. -/
def processEntry (s : SegState) (e : List Char × Bool) : SegState :=
  let s1 := if e.2 then openChapter e.1 (closeChapter s) else s
  let s2 := pushTokens s1 (splitWords e.1)
  if e.2 then s2 else { s2 with paragraphIndex := s2.paragraphIndex + 1 }

def initSeg : SegState :=
  { tokens := []
    chapters := []
    paragraphIndex := 0
    tokenIndex := 0
    activeChapterStart := 0
    activeChapterTitle := "Beginning"
    currentChapterIndex := 0 }

/-- The tail of `tokenizeText`: add the last chapter (unless it is
empty and some chapter exists already), then recompute every chapter's
progress from the final token count. -/
def finishChapters (s : SegState) : List Chapter :=
  let chapters1 :=
    if s.activeChapterStart < s.tokenIndex ∨ s.chapters = [] then
      s.chapters ++
        [{ title := s.activeChapterTitle
           startIndex := s.activeChapterStart
           endIndex := (s.tokens.length : Int) - 1
           progress := chapterProgress s.activeChapterStart s.tokens.length }]
    else s.chapters
  chapters1.map fun c =>
    { c with progress := chapterProgress c.startIndex s.tokens.length }

/-- `tokenizeText` (the chapter-aware version): both passes, the final
chapter push, and the progress recomputation. -/
def tokenizeText (text : String) : List Token × List Chapter :=
  let s := (structuredText text).foldl processEntry initSeg
  (s.tokens, finishChapters s)

/-- Contiguity of a chapter list: `chain a cs b` says the chapters in
`cs` cover the token indices `[a, b)` back to back (each chapter is
non-empty with `endIndex` one less than the next start). -/
def chain : Nat → List Chapter → Nat → Prop
  | a, [], b => a = b
  | a, c :: cs, b =>
    c.startIndex = a ∧ ∃ m : Nat, a < m ∧ c.endIndex = (m : Int) - 1 ∧ chain m cs b

/-- Loop invariant of `tokenizeText`'s second pass. -/
def SegInv (s : SegState) : Prop :=
  s.tokenIndex = s.tokens.length ∧
  s.tokens.map Token.index = List.range s.tokens.length ∧
  chain 0 s.chapters s.activeChapterStart ∧
  s.activeChapterStart ≤ s.tokens.length ∧
  (s.tokens ≠ [] → s.activeChapterStart < s.tokens.length)

/-- The stub `getPauseMultiplier` of `src/lib/util/pause.ts`: it returns
`1.0` for every token. -/
def getPauseMultiplier (_token : String) : Rat := 1

/-- JavaScript `Math.round` on the non-negative rationals arising here. -/
def jsRound (q : Rat) : Int :=
  Int.floor (q + 1 / 2)

/-- `getProgressPercentage` of `src/lib/util/pause.ts`. -/
def getProgressPercentage (currentIndex totalTokens : Nat) : Int :=
  if totalTokens = 0 then 0
  else jsRound (((currentIndex : Rat) / (totalTokens : Rat)) * 100)

/-- The `RSVPPlayer` state touched by the control handlers. -/
structure PlayerState where
  currentIndex : Int
  isPlaying : Bool
  wpm : Nat
deriving Repr, DecidableEq

/-- `handlePlayPause`: `setIsPlaying(!isPlaying)`. -/
def handlePlayPause (s : PlayerState) : PlayerState :=
  { s with isPlaying := !s.isPlaying }

/-- `handleJumpTo(percentage)`: stop playing, then seek to the clamped
`floor(percentage / 100 * tokens.length)`. -/
def handleJumpTo (tokensLen : Nat) (percentage : Rat) (s : PlayerState) : PlayerState :=
  let newIndex : Int := Int.floor (percentage / 100 * (tokensLen : Rat))
  { s with
    isPlaying := false
    currentIndex := min ((tokensLen : Int) - 1) (max 0 newIndex) }

/-- `getInterval` of `RSVPPlayer`: `60000 / wpm` times the pause
multiplier of the current token. -/
def getInterval (wpm : Rat) (tokenText : String) : Rat :=
  (60000 / wpm) * getPauseMultiplier tokenText

/-! ## EPUB container resolution (`src/lib/epub/parseEpub.ts`) -/

/-- A parsed markup tree as produced by the external `DOMParser`: text
nodes and element nodes with a tag, attributes, and children. -/
inductive XmlNode where
  | text : String → XmlNode
  | element : String → List (String × String) → List XmlNode → XmlNode

/-- DOM `getAttribute` (null when absent). -/
def getAttr (n : XmlNode) (name : String) : Option String :=
  match n with
  | .text _ => none
  | .element _ attrs _ => (attrs.find? fun p => p.1 = name).map (·.2)

mutual

/-- DOM `getElementsByTagName`, in tree order (the node itself included
when it matches). -/
def elementsByTag (tag : String) : XmlNode → List XmlNode
  | .text _ => []
  | .element t a cs =>
    (if t = tag then [XmlNode.element t a cs] else []) ++ elementsByTagL tag cs

def elementsByTagL (tag : String) : List XmlNode → List XmlNode
  | [] => []
  | c :: rest => elementsByTag tag c ++ elementsByTagL tag rest

end

mutual

/-- DOM `textContent`: the concatenation of all descendant text nodes. -/
def textContent : XmlNode → String
  | .text s => s
  | .element _ _ cs => textContentL cs

def textContentL : List XmlNode → String
  | [] => ""
  | c :: rest => textContent c ++ textContentL rest

end

/-- The fixed list of tags the extractor treats as block elements. -/
def blockTags : List String :=
  ["P", "DIV", "H1", "H2", "H3", "H4", "H5", "H6", "BR", "LI"]

mutual

/-- `extractTextFromElement`: text nodes contribute their content,
`SCRIPT`/`STYLE` subtrees contribute nothing, and block elements append
a newline after their children's text. -/
def extractTextFromElement : XmlNode → String
  | .text s => s
  | .element tag _ cs =>
    if tag = "SCRIPT" ∨ tag = "STYLE" then ""
    else
      let t := extractChildren cs
      if blockTags.contains tag then t ++ "\n" else t

def extractChildren : List XmlNode → String
  | [] => ""
  | c :: rest => extractTextFromElement c ++ extractChildren rest

end

/-- JavaScript `x || default` on a possibly-undefined string: the
default also replaces the empty string. -/
def jsOrStr (o : Option String) (d : String) : String :=
  match o with
  | none => d
  | some s => if s = "" then d else s

/-- The zip archive, as the partial map `path ↦ file content` that
`zip.file(path)?.async("string")` reads. -/
def zipFile (zip : List (String × String)) (path : String) : Option String :=
  (zip.find? fun e => e.1 = path).map (·.2)

/-- Javascript object insertion `idToHref[id] = href` (overwrites an
existing binding). -/
def assocSet (m : List (String × String)) (k v : String) : List (String × String) :=
  if m.any fun e => e.1 = k then
    m.map fun e => if e.1 = k then (k, v) else e
  else m ++ [(k, v)]

/-- Javascript object lookup `idToHref[idref]`. -/
def assocGet (m : List (String × String)) (k : String) : Option String :=
  (m.find? fun e => e.1 = k).map (·.2)

/-- The manifest id→href map: every `item` with truthy `id` and `href`
attributes. -/
def buildIdToHref (items : List XmlNode) : List (String × String) :=
  items.foldl
    (fun m item =>
      match getAttr item "id", getAttr item "href" with
      | some id, some href =>
        if id = "" ∨ href = "" then m else assocSet m id href
      | _, _ => m)
    []

/-- `opfPath.substring(0, opfPath.lastIndexOf("/") + 1)`: the prefix up
to and including the last slash. -/
def dirOfPath (p : String) : String :=
  String.mk ((p.toList.reverse.dropWhile fun c => c ≠ '/').reverse)

/-- Resolution of a manifest href against the OPF file's directory. -/
def fullPathOf (opfPath href : String) : String :=
  if opfPath.toList.contains '/' then dirOfPath opfPath ++ href else href

def jsTrimS (s : String) : String :=
  String.mk (jsTrim s.toList)

/-- The spine walk of `parseEpub`: each `itemref` whose `idref` resolves
through the manifest to a readable content file contributes its trimmed
extracted text; every failure (`continue`) skips only that entry. -/
def spineParts (parse : String → XmlNode) (zip : List (String × String))
    (opfPath : String) (idToHref : List (String × String)) :
    List XmlNode → List String
  | [] => []
  | itemRef :: rest =>
    let restParts := spineParts parse zip opfPath idToHref rest
    match getAttr itemRef "idref" with
    | none => restParts
    | some idref =>
      if idref = "" then restParts
      else
        match assocGet idToHref idref with
        | none => restParts
        | some href =>
          if href = "" then restParts
          else
            match zipFile zip (fullPathOf opfPath href) with
            | none => restParts
            | some content =>
              if content = "" then restParts
              else
                let t := jsTrimS (extractTextFromElement (parse content))
                if t = "" then restParts else t :: restParts

structure EpubMetadata where
  title : String
  creator : String
  size : Nat
deriving Repr, DecidableEq

structure ParsedEpub where
  metadata : EpubMetadata
  text : String
deriving Repr, DecidableEq

/-- `parseEpub`: container pointer → OPF path → OPF document → metadata
with defaults → manifest map → spine text, joined with blank lines.
Thrown errors are modelled as `Except.error` carrying the message the
`catch` block rethrows. -/
def parseEpub (parse : String → XmlNode) (fileSize : Nat)
    (zip : List (String × String)) : Except String ParsedEpub :=
  match zipFile zip "META-INF/container.xml" with
  | none => .error "Failed to parse EPUB: Invalid EPUB: Missing container.xml"
  | some containerXml =>
    if containerXml = "" then
      .error "Failed to parse EPUB: Invalid EPUB: Missing container.xml"
    else
      match ((elementsByTag "rootfile" (parse containerXml)).head?).bind
          (fun e => getAttr e "full-path") with
      | none => .error "Failed to parse EPUB: Invalid EPUB: Missing OPF file reference"
      | some opfPath =>
        if opfPath = "" then
          .error "Failed to parse EPUB: Invalid EPUB: Missing OPF file reference"
        else
          match zipFile zip opfPath with
          | none => .error "Failed to parse EPUB: Invalid EPUB: OPF file not found"
          | some opfContent =>
            if opfContent = "" then
              .error "Failed to parse EPUB: Invalid EPUB: OPF file not found"
            else
              let opfDoc := parse opfContent
              let title := jsOrStr
                (((elementsByTag "dc:title" opfDoc).head?).map textContent)
                "Unknown Title"
              let creator := jsOrStr
                (((elementsByTag "dc:creator" opfDoc).head?).map textContent)
                "Unknown Author"
              let spineItems := elementsByTag "itemref" opfDoc
              let manifestItems := elementsByTag "item" opfDoc
              let idToHref := buildIdToHref manifestItems
              let textParts := spineParts parse zip opfPath idToHref spineItems
              .ok
                { metadata := { title := title, creator := creator, size := fileSize }
                  text := String.intercalate "\n\n" textParts }

/-! ### Concrete fixtures used by witnesses -/

/-- A spine `itemref` element whose `idref` is `"x"`. -/
def itemRefX : XmlNode := .element "itemref" [("idref", "x")] []

/-- A container document consisting of one `rootfile` element. -/
def containerDocW : XmlNode := .element "rootfile" [("full-path", "pkg.opf")] []

/-- A package document whose `dc:title` and `dc:creator` elements exist
but have empty text content. -/
def opfDocW : XmlNode :=
  .element "package" [] [.element "dc:title" [] [], .element "dc:creator" [] []]

/-- A concrete stand-in for the DOM parser resolving the two fixture
documents. -/
def parseW : String → XmlNode := fun s =>
  if s = "CX" then containerDocW else if s = "OX" then opfDocW else XmlNode.text ""

/-- The fixture archive: a container pointer and the package file. -/
def zipW : List (String × String) :=
  [("META-INF/container.xml", "CX"), ("pkg.opf", "OX")]

/-! ## Helper lemmas -/

theorem chapterProgress_zero (n : Nat) : chapterProgress 0 n = 0 := by
  simp [chapterProgress]

/-! ### Word-splitting facts -/

theorem splitWsAux_ne_of_acc :
    ∀ (l acc : List Char), acc ≠ [] → splitWsAux l acc ≠ [] := by
  intro l
  induction l with
  | nil => intro acc h; simp [splitWsAux, h]
  | cons c rest ih =>
    intro acc h
    by_cases hc : jsWhitespace c
    · simp [splitWsAux, hc, h]
    · exact by simpa [splitWsAux, hc] using ih (c :: acc) (by simp)

theorem splitWsAux_ne_of_mem :
    ∀ (l : List Char) (acc : List Char) (c : Char),
      c ∈ l → jsWhitespace c = false → splitWsAux l acc ≠ [] := by
  intro l
  induction l with
  | nil => intro acc c hc; simp at hc
  | cons d rest ih =>
    intro acc c hc hws
    by_cases hd : jsWhitespace d
    · have hcr : c ∈ rest := by
        rcases List.mem_cons.mp hc with h | h
        · rw [h] at hws; rw [hws] at hd; simp at hd
        · exact h
      by_cases ha : acc = []
      · simpa [splitWsAux, hd, ha] using ih [] c hcr hws
      · simp [splitWsAux, hd, ha]
    · have hd' : jsWhitespace d = false := by simpa using hd
      simpa [splitWsAux, hd'] using splitWsAux_ne_of_acc rest (d :: acc) (by simp)

theorem exists_not_ws_of_dropWhile_ne (p : Char → Bool) :
    ∀ (l : List Char), l.dropWhile p ≠ [] → ∃ c ∈ l.dropWhile p, p c = false := by
  intro l
  induction l with
  | nil => intro h; simp [List.dropWhile] at h
  | cons c rest ih =>
    intro h
    by_cases hc : p c
    · rw [List.dropWhile_cons_of_pos hc] at h ⊢
      exact ih h
    · rw [List.dropWhile_cons_of_neg hc]
      exact ⟨c, List.mem_cons_self c rest, by simpa using hc⟩

theorem exists_not_ws_of_jsTrim_ne (l : List Char) (h : jsTrim l ≠ []) :
    ∃ c ∈ jsTrim l, jsWhitespace c = false := by
  unfold jsTrim at h ⊢
  have hx : ((l.dropWhile jsWhitespace).reverse.dropWhile jsWhitespace) ≠ [] := by
    intro h0; rw [h0] at h; simp at h
  obtain ⟨c, hc, hcw⟩ := exists_not_ws_of_dropWhile_ne jsWhitespace _ hx
  exact ⟨c, List.mem_reverse.mpr hc, hcw⟩

theorem splitWords_jsTrim_ne (l : List Char) (h : jsTrim l ≠ []) :
    splitWords (jsTrim l) ≠ [] := by
  obtain ⟨c, hc, hcw⟩ := exists_not_ws_of_jsTrim_ne l h
  exact splitWsAux_ne_of_mem (jsTrim l) [] c hc hcw

theorem structuredText_entry_words_ne (text : String) :
    ∀ e ∈ structuredText text, splitWords e.1 ≠ [] := by
  intro e he
  unfold structuredText at he
  rw [List.mem_filterMap] at he
  obtain ⟨line, -, hline⟩ := he
  by_cases ht : jsTrim line = []
  · simp [ht] at hline
  · simp only [ht, if_neg ht] at hline
    have : e.1 = jsTrim line := by
      cases hline; rfl
    rw [this]
    exact splitWords_jsTrim_ne line ht

/-! ### `pushTokens` facts -/

theorem pushTokens_chapters :
    ∀ (ws : List (List Char)) (s : SegState), (pushTokens s ws).chapters = s.chapters := by
  intro ws
  induction ws with
  | nil => intro s; rfl
  | cons w ws ih => intro s; simpa [pushTokens] using ih _

theorem pushTokens_activeChapterStart :
    ∀ (ws : List (List Char)) (s : SegState),
      (pushTokens s ws).activeChapterStart = s.activeChapterStart := by
  intro ws
  induction ws with
  | nil => intro s; rfl
  | cons w ws ih => intro s; simpa [pushTokens] using ih _

theorem pushTokens_activeChapterTitle :
    ∀ (ws : List (List Char)) (s : SegState),
      (pushTokens s ws).activeChapterTitle = s.activeChapterTitle := by
  intro ws
  induction ws with
  | nil => intro s; rfl
  | cons w ws ih => intro s; simpa [pushTokens] using ih _

theorem pushTokens_length :
    ∀ (ws : List (List Char)) (s : SegState),
      (pushTokens s ws).tokens.length = s.tokens.length + ws.length := by
  intro ws
  induction ws with
  | nil => intro s; rfl
  | cons w ws ih =>
    intro s
    rw [show pushTokens s (w :: ws) = pushTokens _ ws from rfl, ih]
    simp
    omega

theorem pushTokens_tokenIndex :
    ∀ (ws : List (List Char)) (s : SegState),
      (pushTokens s ws).tokenIndex = s.tokenIndex + ws.length := by
  intro ws
  induction ws with
  | nil => intro s; rfl
  | cons w ws ih =>
    intro s
    rw [show pushTokens s (w :: ws) = pushTokens _ ws from rfl, ih]
    simp
    omega

theorem pushTokens_map_index :
    ∀ (ws : List (List Char)) (s : SegState),
      s.tokenIndex = s.tokens.length →
      s.tokens.map Token.index = List.range s.tokens.length →
      (pushTokens s ws).tokens.map Token.index =
        List.range (pushTokens s ws).tokens.length := by
  intro ws
  induction ws with
  | nil => intro s _ h2; exact h2
  | cons w ws ih =>
    intro s h1 h2
    rw [show pushTokens s (w :: ws) = pushTokens _ ws from rfl]
    apply ih
    · simp [h1]
    · simp only [List.map_append, List.length_append, h2, h1]
      simp [List.range_succ]

/-! ### `closeChapter`, `openChapter`, `processEntry` projections -/

theorem closeChapter_tokens (s : SegState) : (closeChapter s).tokens = s.tokens := by
  unfold closeChapter; split <;> rfl

theorem closeChapter_tokenIndex (s : SegState) :
    (closeChapter s).tokenIndex = s.tokenIndex := by
  unfold closeChapter; split <;> rfl

theorem closeChapter_activeChapterStart (s : SegState) :
    (closeChapter s).activeChapterStart = s.activeChapterStart := by
  unfold closeChapter; split <;> rfl

theorem processEntry_of_false (s : SegState) (e : List Char × Bool) (hb : e.2 = false) :
    processEntry s e =
      { pushTokens s (splitWords e.1) with
        paragraphIndex := (pushTokens s (splitWords e.1)).paragraphIndex + 1 } := by
  simp [processEntry, hb]

theorem processEntry_of_true (s : SegState) (e : List Char × Bool) (hb : e.2 = true) :
    processEntry s e = pushTokens (openChapter e.1 (closeChapter s)) (splitWords e.1) := by
  simp [processEntry, hb]

/-! ### `chain` facts -/

theorem chain_snoc :
    ∀ (cs : List Chapter) (a m n : Nat) (c : Chapter),
      chain a cs m → c.startIndex = m → c.endIndex = (n : Int) - 1 → m < n →
      chain a (cs ++ [c]) n := by
  intro cs
  induction cs with
  | nil =>
    intro a m n c hch hs he hmn
    have : a = m := hch
    subst this
    exact ⟨hs.symm ▸ rfl, n, hmn, he, rfl⟩
  | cons c0 cs ih =>
    intro a m n c hch hs he hmn
    obtain ⟨h0, k, hak, hek, hrest⟩ := hch
    exact ⟨h0, k, hak, hek, ih k m n c hrest hs he hmn⟩

theorem chain_map (g : Chapter → Rat) :
    ∀ (cs : List Chapter) (a b : Nat),
      chain a cs b → chain a (cs.map fun c => { c with progress := g c }) b := by
  intro cs
  induction cs with
  | nil => intro a b h; exact h
  | cons c cs ih =>
    intro a b h
    obtain ⟨h0, m, ham, hem, hrest⟩ := h
    exact ⟨h0, m, ham, hem, ih m b hrest⟩

theorem chain_getElem? :
    ∀ (cs : List Chapter) (a b : Nat), chain a cs b →
      ∀ k, k + 1 < cs.length →
        ((cs[k]?).map fun c => c.endIndex + 1) =
          ((cs[k + 1]?).map fun c => (c.startIndex : Int)) := by
  intro cs
  induction cs with
  | nil => intro a b _ k hk; simp at hk
  | cons c cs ih =>
    intro a b hch k hk
    obtain ⟨h0, m, ham, hem, hrest⟩ := hch
    cases k with
    | zero =>
      cases cs with
      | nil => simp at hk
      | cons c2 cs' =>
        obtain ⟨h02, -⟩ := hrest
        simp [hem, h02]
    | succ k =>
      simp only [List.getElem?_cons_succ]
      exact ih m b hrest k (by simpa using hk)

theorem chain_getLast? :
    ∀ (cs : List Chapter) (a b : Nat), chain a cs b → cs ≠ [] →
      (cs.getLast?).map Chapter.endIndex = some ((b : Int) - 1) := by
  intro cs
  induction cs with
  | nil => intro a b _ h; exact absurd rfl h
  | cons c cs ih =>
    intro a b hch _
    obtain ⟨h0, m, ham, hem, hrest⟩ := hch
    cases cs with
    | nil =>
      have : m = b := hrest
      subst this
      simp [List.getLast?, hem]
    | cons c2 cs' =>
      rw [List.getLast?_cons_cons]
      exact ih m b hrest (by simp)

/-! ### The second-pass invariant -/

theorem segInv_init : SegInv initSeg := by
  refine ⟨rfl, rfl, rfl, le_refl 0, ?_⟩
  intro h
  exact absurd rfl h

theorem segInv_processEntry (s : SegState) (e : List Char × Bool)
    (h : SegInv s) (hw : splitWords e.1 ≠ []) : SegInv (processEntry s e) := by
  obtain ⟨h1, h2, h3, h4, h5⟩ := h
  have hwlen : 0 < (splitWords e.1).length := List.length_pos.mpr hw
  cases hb : e.2 with
  | false =>
    rw [processEntry_of_false s e hb]
    refine ⟨?_, ?_, ?_, ?_, ?_⟩
    · show (pushTokens s (splitWords e.1)).tokenIndex =
        (pushTokens s (splitWords e.1)).tokens.length
      rw [pushTokens_tokenIndex, pushTokens_length, h1]
    · exact pushTokens_map_index _ s h1 h2
    · show chain 0 (pushTokens s (splitWords e.1)).chapters
        (pushTokens s (splitWords e.1)).activeChapterStart
      rw [pushTokens_chapters, pushTokens_activeChapterStart]
      exact h3
    · show (pushTokens s (splitWords e.1)).activeChapterStart ≤
        (pushTokens s (splitWords e.1)).tokens.length
      rw [pushTokens_activeChapterStart, pushTokens_length]
      omega
    · intro _
      show (pushTokens s (splitWords e.1)).activeChapterStart <
        (pushTokens s (splitWords e.1)).tokens.length
      rw [pushTokens_activeChapterStart, pushTokens_length]
      omega
  | true =>
    rw [processEntry_of_true s e hb]
    set s1 := openChapter e.1 (closeChapter s) with hs1
    have hs1tokens : s1.tokens = s.tokens := closeChapter_tokens s
    have hs1tokenIndex : s1.tokenIndex = s.tokenIndex := closeChapter_tokenIndex s
    have hs1start : s1.activeChapterStart = s.tokenIndex := by
      show (closeChapter s).tokenIndex = s.tokenIndex
      exact closeChapter_tokenIndex s
    have hs1chain : chain 0 s1.chapters s1.activeChapterStart := by
      rw [hs1start]
      show chain 0 (closeChapter s).chapters s.tokenIndex
      by_cases hlt : s.activeChapterStart < s.tokenIndex
      · unfold closeChapter
        rw [if_pos hlt]
        exact chain_snoc s.chapters 0 s.activeChapterStart s.tokenIndex _ h3 rfl rfl hlt
      · unfold closeChapter
        rw [if_neg hlt]
        have : s.activeChapterStart = s.tokenIndex := by omega
        rw [← this]
        exact h3
    refine ⟨?_, ?_, ?_, ?_, ?_⟩
    · rw [pushTokens_tokenIndex, pushTokens_length, hs1tokens, hs1tokenIndex, h1]
    · exact pushTokens_map_index _ s1 (by rw [hs1tokenIndex, hs1tokens, h1])
        (by rw [hs1tokens]; exact h2)
    · rw [pushTokens_chapters, pushTokens_activeChapterStart]
      exact hs1chain
    · rw [pushTokens_activeChapterStart, pushTokens_length, hs1start, hs1tokens, h1]
      omega
    · intro _
      rw [pushTokens_activeChapterStart, pushTokens_length, hs1start, hs1tokens, h1]
      omega

theorem segInv_foldl :
    ∀ (es : List (List Char × Bool)) (s : SegState),
      SegInv s → (∀ e ∈ es, splitWords e.1 ≠ []) →
      SegInv (es.foldl processEntry s) := by
  intro es
  induction es with
  | nil => intro s h _; exact h
  | cons e es ih =>
    intro s h hws
    exact ih (processEntry s e)
      (segInv_processEntry s e h (hws e (List.mem_cons_self e es)))
      (fun e' he' => hws e' (List.mem_cons_of_mem e he'))

theorem segInv_tokenize (text : String) :
    SegInv ((structuredText text).foldl processEntry initSeg) :=
  segInv_foldl (structuredText text) initSeg segInv_init
    (structuredText_entry_words_ne text)

theorem finishChapters_chain (s : SegState) (hInv : SegInv s) (hne : s.tokens ≠ []) :
    chain 0 (finishChapters s) s.tokens.length := by
  obtain ⟨h1, -, h3, -, h5⟩ := hInv
  have hlt : s.activeChapterStart < s.tokens.length := h5 hne
  unfold finishChapters
  rw [if_pos (Or.inl (by omega : s.activeChapterStart < s.tokenIndex))]
  exact chain_map _ _ 0 s.tokens.length
    (chain_snoc s.chapters 0 s.activeChapterStart s.tokens.length _ h3 rfl rfl hlt)

theorem tokenizeText_chain (text : String) (h : (tokenizeText text).1 ≠ []) :
    chain 0 (tokenizeText text).2 (tokenizeText text).1.length :=
  finishChapters_chain _ (segInv_tokenize text) h

theorem foldl_noHeading :
    ∀ (es : List (List Char × Bool)) (s : SegState),
      (∀ e ∈ es, e.2 = false) →
      (es.foldl processEntry s).chapters = s.chapters ∧
      (es.foldl processEntry s).activeChapterStart = s.activeChapterStart ∧
      (es.foldl processEntry s).activeChapterTitle = s.activeChapterTitle := by
  intro es
  induction es with
  | nil => intro s _; exact ⟨rfl, rfl, rfl⟩
  | cons e es ih =>
    intro s hb
    have he : e.2 = false := hb e (List.mem_cons_self e es)
    have step1 : (processEntry s e).chapters = s.chapters := by
      rw [processEntry_of_false s e he]
      exact pushTokens_chapters _ s
    have step2 : (processEntry s e).activeChapterStart = s.activeChapterStart := by
      rw [processEntry_of_false s e he]
      exact pushTokens_activeChapterStart _ s
    have step3 : (processEntry s e).activeChapterTitle = s.activeChapterTitle := by
      rw [processEntry_of_false s e he]
      exact pushTokens_activeChapterTitle _ s
    have hrest := ih (processEntry s e) (fun e' he' => hb e' (List.mem_cons_of_mem e he'))
    refine ⟨?_, ?_, ?_⟩
    · rw [List.foldl_cons, hrest.1, step1]
    · rw [List.foldl_cons, hrest.2.1, step2]
    · rw [List.foldl_cons, hrest.2.2, step3]

/-- The concrete chapter-detection scenario input. -/
def chapterScenario : String :=
  "Chapter 1\nHello world.\nChapter 2\nGoodbye now."

/-! ## Claim theorems -/

/-- C1 (counterexample): the claim says `getPauseMultiplier("end.") = 2.0`,
but the source function is a stub and returns `1.0` for that token. -/
theorem getPauseMultiplier_end_ne_two : ¬ (getPauseMultiplier "end." = 2) := by
  decide

/-- C1 (amended): the pause multiplier is a pure function of the token
that ignores its characters entirely: `getPauseMultiplier` returns `1.0`
for every token, including `"end."`, `"wait,"`, `"—yes"` and `"word"`. -/
theorem getPauseMultiplier_const :
    (∀ t : String, getPauseMultiplier t = 1) ∧
    getPauseMultiplier "end." = 1 ∧ getPauseMultiplier "wait," = 1 ∧
    getPauseMultiplier "—yes" = 1 ∧ getPauseMultiplier "word" = 1 :=
  ⟨fun _ => rfl, rfl, rfl, rfl, rfl⟩

/-- C2 (counterexample): for empty input the chapter list is not empty —
the final `|| chapters.length === 0` guard records a chapter anyway. -/
theorem tokenizeText_empty_chapters_nonempty : (tokenizeText "").2 ≠ [] := by
  decide

/-- C2 (amended): for empty input text `tokenizeText` returns an empty
token list together with a single chapter titled "Beginning" with
`startIndex 0`, `endIndex -1` and progress `0`. -/
theorem tokenizeText_empty :
    tokenizeText "" =
      ([], [{ title := "Beginning", startIndex := 0, endIndex := -1, progress := 0 }]) := by
  have h : chapterProgress 0 0 = 0 := chapterProgress_zero 0
  rw [← h]
  rfl

/-- C3 (counterexample): on the chapter-detection scenario the first
chapter does not span tokens 0–2: its `endIndex` is 3, because the
heading line "Chapter 1" itself contributes the tokens "Chapter" and
"1" to the chapter it opens. -/
theorem chapterScenario_first_not_0_2 :
    ¬ (((tokenizeText chapterScenario).2[0]?).map (fun c => (c.startIndex, c.endIndex)) =
        some (0, (2 : Int))) := by
  decide

/-- C3 (amended): the scenario input yields exactly 2 chapters; each
heading line's own text is tokenized into the chapter it opens; the
first chapter spans tokens 0–3 and the second starts at index 4,
immediately after the first chapter ends. -/
theorem chapterScenario_structure :
    ((tokenizeText chapterScenario).2.map fun c => (c.title, c.startIndex, c.endIndex)) =
      [("Chapter 1", 0, (3 : Int)), ("Chapter 2", 4, 7)] ∧
    ((tokenizeText chapterScenario).1.map Token.text) =
      ["Chapter", "1", "Hello", "world.", "Chapter", "2", "Goodbye", "now."] ∧
    ((tokenizeText chapterScenario).1.map Token.chapterTitle) =
      ["Chapter 1", "Chapter 1", "Chapter 1", "Chapter 1",
       "Chapter 2", "Chapter 2", "Chapter 2", "Chapter 2"] := by
  refine ⟨by decide, by decide, by decide⟩

/-- C4 (counterexample): the player's pause control is
`handlePlayPause`, which toggles `isPlaying`; invoked twice from a
playing state it leaves the player playing, not idle. -/
theorem handlePlayPause_twice_not_idle :
    ¬ ((handlePlayPause (handlePlayPause
        { currentIndex := 0, isPlaying := true, wpm := 300 })).isPlaying = false) := by
  decide

/-- C4 (amended): `handlePlayPause` is a toggle — two consecutive calls
restore the original state exactly (so `currentIndex` is unchanged, but
the result is idle only when the original state was); and seeking is
idempotent: `handleJumpTo(p)` twice yields the same state as once. -/
theorem player_toggle_and_seek_idempotent (s : PlayerState) (n : Nat) (p : Rat) :
    handlePlayPause (handlePlayPause s) = s ∧
    handleJumpTo n p (handleJumpTo n p s) = handleJumpTo n p s := by
  constructor
  · cases s
    simp [handlePlayPause]
  · rfl

/-- C5: for every input text the token sequence is contiguous and
zero-based: the token at position `i` carries `index = i`. -/
theorem tokens_index_contiguous (text : String) (i : Nat)
    (h : i < (tokenizeText text).1.length) :
    ((tokenizeText text).1[i]?).map Token.index = some i := by
  obtain ⟨-, h2, -, -, -⟩ := segInv_tokenize text
  have hfst : (tokenizeText text).1 =
      ((structuredText text).foldl processEntry initSeg).tokens := rfl
  rw [hfst] at h ⊢
  rw [← List.getElem?_map, h2, List.getElem?_range (by simpa using h)]

/-- C5 (witness): the token at position 1 of `"a b"` has index 1. -/
theorem tokens_index_contiguous_witness :
    1 < (tokenizeText "a b").1.length ∧
    ((tokenizeText "a b").1[1]?).map Token.index = some 1 :=
  ⟨by decide, tokens_index_contiguous "a b" 1 (by decide)⟩

/-- C6: for every text with at least one token the chapter list is
non-overlapping and contiguous over the token index space:
`chapters[k].endIndex + 1 = chapters[k+1].startIndex` for every `k`
before the last, and the last chapter ends at `tokens.length - 1`. -/
theorem chapters_contiguous (text : String) (k : Nat)
    (htok : (tokenizeText text).1 ≠ []) :
    (k + 1 < (tokenizeText text).2.length →
      (((tokenizeText text).2[k]?).map fun c => c.endIndex + 1) =
        (((tokenizeText text).2[k + 1]?).map fun c => (c.startIndex : Int))) ∧
    ((tokenizeText text).2.getLast?).map Chapter.endIndex =
      some (((tokenizeText text).1.length : Int) - 1) := by
  have hch := tokenizeText_chain text htok
  have hlen : 0 < (tokenizeText text).1.length := List.length_pos.mpr htok
  have hne2 : (tokenizeText text).2 ≠ [] := by
    intro h0
    rw [h0] at hch
    have h00 : (0 : Nat) = (tokenizeText text).1.length := hch
    omega
  exact ⟨fun hk => chain_getElem? _ 0 _ hch k hk, chain_getLast? _ 0 _ hch hne2⟩

/-- C6 (witness): contiguity of the two chapters of the scenario text. -/
theorem chapters_contiguous_witness :
    (tokenizeText chapterScenario).1 ≠ [] ∧
    ((0 + 1 < (tokenizeText chapterScenario).2.length →
        (((tokenizeText chapterScenario).2[0]?).map fun c => c.endIndex + 1) =
          (((tokenizeText chapterScenario).2[0 + 1]?).map fun c => (c.startIndex : Int))) ∧
      ((tokenizeText chapterScenario).2.getLast?).map Chapter.endIndex =
        some (((tokenizeText chapterScenario).1.length : Int) - 1)) :=
  ⟨by decide, chapters_contiguous chapterScenario 0 (by decide)⟩

/-- C7: a text with at least one token and no line classified as a
heading yields exactly one chapter titled "Beginning" spanning all
tokens from index 0. -/
theorem no_heading_single_chapter (text : String)
    (_h1 : (tokenizeText text).1 ≠ [])
    (h2 : ∀ e ∈ structuredText text, e.2 = false) :
    (tokenizeText text).2 =
      [{ title := "Beginning", startIndex := 0,
         endIndex := ((tokenizeText text).1.length : Int) - 1, progress := 0 }] := by
  obtain ⟨hc, hs, ht⟩ := foldl_noHeading (structuredText text) initSeg h2
  show finishChapters ((structuredText text).foldl processEntry initSeg) = _
  set s := (structuredText text).foldl processEntry initSeg with hsdef
  have hc0 : s.chapters = [] := hc
  have hs0 : s.activeChapterStart = 0 := hs
  have ht0 : s.activeChapterTitle = "Beginning" := ht
  unfold finishChapters
  rw [hc0, if_pos (Or.inr rfl)]
  simp only [List.nil_append, List.map_cons, List.map_nil, hs0, ht0, chapterProgress_zero]
  rfl

/-- C7 (witness): the single "Beginning" chapter of `"Hello there."`. -/
theorem no_heading_single_chapter_witness :
    (tokenizeText "Hello there.").1 ≠ [] ∧
    (tokenizeText "Hello there.").2 =
      [{ title := "Beginning", startIndex := 0,
         endIndex := ((tokenizeText "Hello there.").1.length : Int) - 1, progress := 0 }] :=
  ⟨by decide, no_heading_single_chapter "Hello there." (by decide) (by decide)⟩

/-- C8: progress is `round(100 × currentIndex / tokenCount)` with a
zero guard: `getProgressPercentage 0 N = 0` and
`getProgressPercentage N N = 100` for `N > 0`, and
`getProgressPercentage i 0 = 0` for every `i`. -/
theorem getProgressPercentage_props (i N : Nat) (hN : 0 < N) :
    getProgressPercentage 0 N = 0 ∧ getProgressPercentage N N = 100 ∧
    getProgressPercentage i 0 = 0 := by
  have hN' : (N : Rat) ≠ 0 := by exact_mod_cast hN.ne'
  refine ⟨?_, ?_, ?_⟩
  · rw [getProgressPercentage, if_neg hN.ne', jsRound]
    norm_num
  · rw [getProgressPercentage, if_neg hN.ne', jsRound, div_self hN', one_mul]
    rw [Int.floor_eq_iff]
    constructor <;> norm_num
  · rfl

/-- C8 (witness): the properties at `i = 7`, `N = 4`. -/
theorem getProgressPercentage_props_witness :
    0 < 4 ∧ (getProgressPercentage 0 4 = 0 ∧ getProgressPercentage 4 4 = 100 ∧
      getProgressPercentage 7 0 = 0) :=
  ⟨by decide, getProgressPercentage_props 7 4 (by decide)⟩

/-- C9: resolution fails with a parse error when
`META-INF/container.xml` is absent from the archive, while a spine
`itemref` whose `idref` does not resolve through the manifest lookup is
skipped and the walk continues with the remaining entries. -/
theorem epub_missing_container_vs_spine_skip :
    (∀ (parse : String → XmlNode) (sz : Nat) (zip : List (String × String)),
      zipFile zip "META-INF/container.xml" = none →
      parseEpub parse sz zip =
        .error "Failed to parse EPUB: Invalid EPUB: Missing container.xml") ∧
    (∀ (parse : String → XmlNode) (zip : List (String × String))
        (opfPath : String) (idToHref : List (String × String))
        (itemRef : XmlNode) (rest : List XmlNode) (idref : String),
      getAttr itemRef "idref" = some idref → idref ≠ "" →
      assocGet idToHref idref = none →
      spineParts parse zip opfPath idToHref (itemRef :: rest) =
        spineParts parse zip opfPath idToHref rest) := by
  constructor
  · intro parse sz zip h
    unfold parseEpub
    rw [h]
  · intro parse zip opfPath idToHref itemRef rest idref ha hne hg
    simp only [spineParts, ha, hg, if_neg hne]

/-- C9 (witness): the empty archive misses the container pointer, and a
spine entry whose `idref "x"` is absent from an empty manifest map is
skipped. -/
theorem epub_missing_container_vs_spine_skip_witness :
    (zipFile [] "META-INF/container.xml" = none ∧
      parseEpub (fun _ => XmlNode.text "") 0 [] =
        .error "Failed to parse EPUB: Invalid EPUB: Missing container.xml") ∧
    (getAttr itemRefX "idref" = some "x" ∧ assocGet [] "x" = none ∧
      spineParts (fun _ => XmlNode.text "") [] "content.opf" [] [itemRefX] =
        spineParts (fun _ => XmlNode.text "") [] "content.opf" [] []) :=
  ⟨⟨rfl, epub_missing_container_vs_spine_skip.1 _ 0 [] rfl⟩,
   ⟨rfl, rfl,
    epub_missing_container_vs_spine_skip.2 _ [] "content.opf" [] itemRefX [] "x"
      rfl (by decide) rfl⟩⟩

/-- C10: when the pipeline reaches metadata extraction and the first
`dc:title` and `dc:creator` elements exist but carry empty text, the
parse still succeeds with the defaults "Unknown Title" and
"Unknown Author" — the `||` defaults apply to empty strings, not only
to absent elements. -/
theorem epub_empty_metadata_defaults (parse : String → XmlNode) (sz : Nat)
    (zip : List (String × String)) (cx ox opfPath : String)
    (h1 : zipFile zip "META-INF/container.xml" = some cx) (h2 : cx ≠ "")
    (h3 : ((elementsByTag "rootfile" (parse cx)).head?).bind
        (fun e => getAttr e "full-path") = some opfPath)
    (h4 : opfPath ≠ "")
    (h5 : zipFile zip opfPath = some ox) (h6 : ox ≠ "")
    (h7 : ((elementsByTag "dc:title" (parse ox)).head?).map textContent = some "")
    (h8 : ((elementsByTag "dc:creator" (parse ox)).head?).map textContent = some "") :
    (parseEpub parse sz zip).map (fun r => (r.metadata.title, r.metadata.creator)) =
      .ok ("Unknown Title", "Unknown Author") := by
  simp only [parseEpub, h1, h3, h5, if_neg h2, if_neg h4, if_neg h6, h7, h8,
    jsOrStr, Except.map, if_pos rfl, if_true]

/-- C10 (witness): the fixture archive whose `dc:title`/`dc:creator`
have empty text parses to the default metadata. -/
theorem epub_empty_metadata_defaults_witness :
    (zipFile zipW "META-INF/container.xml" = some "CX" ∧
      ((elementsByTag "dc:title" (parseW "OX")).head?).map textContent = some "") ∧
    (parseEpub parseW 7 zipW).map (fun r => (r.metadata.title, r.metadata.creator)) =
      .ok ("Unknown Title", "Unknown Author") :=
  ⟨⟨rfl, rfl⟩,
   epub_empty_metadata_defaults parseW 7 zipW "CX" "OX" "pkg.opf"
     rfl (by decide) rfl (by decide) rfl (by decide) rfl rfl⟩

end RSVP
